import Mathlib

/-!
Verification of the Pocket Casts favorited-podcasts downloader
(`pocketcast_downloader.py`).

Modelling conventions:

* Python strings are modelled as `List Char` (abbreviated `Str`).
  `str.lower()` is `pyLower`, the substring test `a in b` is `containsSub`,
  `s.split(sep)` for an explicit separator is `splitSep` (keeps empty fields,
  as Python does), and `s.split()` is `pyWords` (splits on whitespace runs and
  drops empty fields).
* Filesystem paths are modelled as lists of path segments, normalised the way
  `pathlib` normalises them: empty segments and `.` segments are dropped when
  paths are joined.  Absolute-path roots are abstracted away (both compared
  path computations share the same base directory string).
* Side effects (network requests, directory creation, file writes, metadata
  reconciliation) are recorded as an explicit `Effect` trace.
-/

abbrev Str := List Char

/-- Python `str.lower()` (modelled on its ASCII behaviour). -/
def pyLower (s : Str) : Str := s.map Char.toLower

/-- The ASCII whitespace characters recognised by the Python method `str.split()`. -/
def isPySpace (c : Char) : Bool :=
  c = ' ' || c = '\t' || c = '\n' || c = '\r' || c = '\x0b' || c = '\x0c'

/-- Python `s.split(sep)` for a one-character separator class: splits at every
separator character, keeping empty fields.  The result is always non-empty. -/
def splitSep (p : Char → Bool) : Str → List Str
  | [] => [[]]
  | c :: cs =>
    if p c then [] :: splitSep p cs
    else
      match splitSep p cs with
      | [] => [[c]]
      | f :: fs => (c :: f) :: fs

/-- Python `s.split()`: split on whitespace runs, dropping empty fields. -/
def pyWords (s : Str) : List Str := (splitSep isPySpace s).filter (fun w => !w.isEmpty)

/-- Python `" ".join(ws)`. -/
def joinSp : List Str → Str
  | [] => []
  | [w] => w
  | w :: v :: ws => w ++ ' ' :: joinSp (v :: ws)

/-- Line 119: `filename.replace("|", "-")`. -/
def replacePipe (s : Str) : Str := s.map (fun c => if c = '|' then '-' else c)

/-- Line 120: `filename.replace(":", " -")`. -/
def replaceColon : Str → Str
  | [] => []
  | c :: cs => (if c = ':' then [' ', '-'] else [c]) ++ replaceColon cs

/-- Line 122: the characters removed by the sanitizer, `<>"/\?*`. -/
def invalidChars : Str := "<>\"/\\?*".toList

/-- Lines 123–124: remove every character of `invalidChars`. -/
def removeInvalid (s : Str) : Str := s.filter (fun c => !invalidChars.contains c)

/-- Model of `PodcastDownloader.sanitize_filename` (lines 117–128): replace `|` by `-`,
replace `:` by ` -`, drop the characters `<>"/\?*`, then collapse whitespace
with `" ".join(filename.split())`. -/
def sanitizeFilename (s : Str) : Str :=
  joinSp (pyWords (removeInvalid (replaceColon (replacePipe s))))

theorem splitSep_ne_nil (p : Char → Bool) (l : Str) : splitSep p l ≠ [] := by
  cases l with
  | nil => simp [splitSep]
  | cons c cs =>
    by_cases h : p c
    · simp [splitSep, h]
    · cases hs : splitSep p cs <;> simp [splitSep, h, hs]

theorem mem_of_mem_splitSep {p : Char → Bool} {l w : Str} {c : Char}
    (hw : w ∈ splitSep p l) (hc : c ∈ w) : c ∈ l ∧ p c = false := by
  induction l generalizing w with
  | nil =>
    simp [splitSep] at hw
    subst hw
    simp at hc
  | cons d ds ih =>
    cases hd : p d with
    | true =>
      simp [splitSep, hd] at hw
      rcases hw with hw | hw
      · subst hw; simp at hc
      · have := ih hw hc
        exact ⟨List.mem_cons_of_mem _ this.1, this.2⟩
    | false =>
      cases hs : splitSep p ds with
      | nil => exact absurd hs (splitSep_ne_nil p ds)
      | cons f fs =>
        simp [splitSep, hd, hs] at hw
        rcases hw with hw | hw
        · subst hw
          rcases List.mem_cons.mp hc with rfl | hc
          · exact ⟨List.mem_cons_self _ _, hd⟩
          · have := ih (w := f) (by rw [hs]; exact List.mem_cons_self _ _) hc
            exact ⟨List.mem_cons_of_mem _ this.1, this.2⟩
        · have := ih (w := w) (by rw [hs]; exact List.mem_cons_of_mem _ hw) hc
          exact ⟨List.mem_cons_of_mem _ this.1, this.2⟩

theorem splitSep_of_all_not {p : Char → Bool} {l : Str} (h : ∀ c ∈ l, p c = false) :
    splitSep p l = [l] := by
  induction l with
  | nil => rfl
  | cons c cs ih =>
    have hc : p c = false := h c (List.mem_cons_self _ _)
    have hcs := ih (fun d hd => h d (List.mem_cons_of_mem _ hd))
    simp [splitSep, hc, hcs]

theorem splitSep_append_sep {p : Char → Bool} {c : Char} (hc : p c = true) (a b : Str) :
    splitSep p (a ++ c :: b) = splitSep p a ++ splitSep p b := by
  induction a with
  | nil => simp [splitSep, hc]
  | cons d ds ih =>
    cases hd : p d with
    | true => simp [splitSep, hd, ih]
    | false =>
      cases hs : splitSep p ds with
      | nil => exact absurd hs (splitSep_ne_nil p ds)
      | cons f fs =>
        rw [List.cons_append]
        simp [splitSep, hd, ih, hs]

theorem headD_splitSep (p : Char → Bool) (l : Str) :
    (splitSep p l).headD [] = l.takeWhile (fun c => !p c) := by
  induction l with
  | nil => rfl
  | cons c cs ih =>
    cases hc : p c with
    | true => simp [splitSep, hc, List.takeWhile_cons]
    | false =>
      cases hs : splitSep p cs with
      | nil => exact absurd hs (splitSep_ne_nil p cs)
      | cons f fs =>
        simp only [splitSep, hc, Bool.false_eq_true, if_false, hs, List.takeWhile_cons,
          Bool.not_false, if_true, List.headD_cons]
        rw [← ih, hs]
        rfl

/-- The substring after the last character satisfying `p` (the whole string if
no character satisfies `p`).  Used to state the wording of the spec "the substring
after the last `.`" / "the last path segment". -/
def afterLast (p : Char → Bool) : Str → Str
  | [] => []
  | c :: cs =>
    if cs.any p then afterLast p cs
    else if p c then cs
    else c :: cs

theorem two_le_splitSep_of_any {p : Char → Bool} {l : Str} (h : l.any p = true) :
    ∃ x y ys, splitSep p l = x :: y :: ys := by
  induction l with
  | nil => simp at h
  | cons c cs ih =>
    cases hc : p c with
    | true =>
      cases hs : splitSep p cs with
      | nil => exact absurd hs (splitSep_ne_nil p cs)
      | cons f fs => exact ⟨[], f, fs, by simp [splitSep, hc, hs]⟩
    | false =>
      have hcs : cs.any p = true := by
        simp only [List.any_cons, hc, Bool.false_or] at h
        exact h
      obtain ⟨x, y, ys, hxy⟩ := ih hcs
      exact ⟨c :: x, y, ys, by simp [splitSep, hc, hxy]⟩

theorem getLastD_splitSep (p : Char → Bool) (l : Str) :
    (splitSep p l).getLastD [] = afterLast p l := by
  induction l with
  | nil => rfl
  | cons c cs ih =>
    cases hany : cs.any p with
    | true =>
      cases hc : p c with
      | true =>
        simp only [splitSep, hc, if_true, afterLast, hany]
        rw [List.getLastD_cons]
        exact ih
      | false =>
        obtain ⟨x, y, ys, hxy⟩ := two_le_splitSep_of_any hany
        simp only [splitSep, hc, Bool.false_eq_true, if_false, hxy, afterLast, hany, if_true]
        rw [← ih, hxy]
        simp [List.getLastD_cons]
    | false =>
      have hall : ∀ d ∈ cs, p d = false := by
        intro d hd
        have := List.any_eq_false.mp (by simpa using hany) d hd
        simpa using this
      have hcs : splitSep p cs = [cs] := splitSep_of_all_not hall
      cases hc : p c with
      | true => simp [splitSep, hc, hcs, afterLast, hany, List.getLastD_cons]
      | false => simp [splitSep, hc, hcs, afterLast, hany, List.getLastD_cons]

theorem mem_replacePipe {c : Char} {s : Str} (h : c ∈ replacePipe s) :
    c ≠ '|' ∧ (c ∈ s ∨ c = '-') := by
  rcases List.mem_map.mp h with ⟨d, hd, hdc⟩
  by_cases hdp : d = '|'
  · subst hdc
    subst hdp
    simp only [if_pos rfl]
    exact ⟨by decide, Or.inr rfl⟩
  · subst hdc
    simp only [if_neg hdp]
    exact ⟨hdp, Or.inl hd⟩

theorem mem_replaceColon {c : Char} {s : Str} (h : c ∈ replaceColon s) :
    c ≠ ':' ∧ (c ∈ s ∨ c = ' ' ∨ c = '-') := by
  induction s with
  | nil => simp [replaceColon] at h
  | cons d ds ih =>
    simp only [replaceColon] at h
    rcases List.mem_append.mp h with h1 | h1
    · by_cases hdp : d = ':'
      · rw [if_pos hdp] at h1
        rcases List.mem_cons.mp h1 with rfl | h1
        · exact ⟨by decide, Or.inr (Or.inl rfl)⟩
        · rcases List.mem_cons.mp h1 with rfl | h1
          · exact ⟨by decide, Or.inr (Or.inr rfl)⟩
          · simp at h1
      · rw [if_neg hdp] at h1
        rcases List.mem_cons.mp h1 with rfl | h1
        · exact ⟨hdp, Or.inl (List.mem_cons_self _ _)⟩
        · simp at h1
    · obtain ⟨h2, h3⟩ := ih h1
      rcases h3 with h3 | h3
      · exact ⟨h2, Or.inl (List.mem_cons_of_mem _ h3)⟩
      · exact ⟨h2, Or.inr h3⟩

theorem mem_removeInvalid {c : Char} {s : Str} (h : c ∈ removeInvalid s) :
    c ∈ s ∧ invalidChars.contains c = false := by
  have := List.mem_filter.mp h
  exact ⟨this.1, by simpa using this.2⟩

theorem mem_joinSp {c : Char} : ∀ {ws : List Str}, c ∈ joinSp ws → c = ' ' ∨ ∃ w ∈ ws, c ∈ w := by
  intro ws
  induction ws with
  | nil => intro h; simp [joinSp] at h
  | cons w vs ih =>
    intro h
    cases vs with
    | nil =>
      simp only [joinSp] at h
      exact Or.inr ⟨w, List.mem_cons_self _ _, h⟩
    | cons v vs' =>
      simp only [joinSp] at h
      rcases List.mem_append.mp h with h | h
      · exact Or.inr ⟨w, List.mem_cons_self _ _, h⟩
      · rcases List.mem_cons.mp h with h | h
        · exact Or.inl h
        · rcases ih h with h | ⟨u, hu, hcu⟩
          · exact Or.inl h
          · exact Or.inr ⟨u, List.mem_cons_of_mem _ hu, hcu⟩

theorem mem_pyWords {c : Char} {w s : Str} (hw : w ∈ pyWords s) (hc : c ∈ w) :
    c ∈ s ∧ isPySpace c = false :=
  mem_of_mem_splitSep (List.mem_filter.mp hw).1 hc

theorem replacePipe_of_no_pipe {s : Str} (h : ∀ c ∈ s, c ≠ '|') : replacePipe s = s := by
  induction s with
  | nil => rfl
  | cons c cs ih =>
    have hc : c ≠ '|' := h c (List.mem_cons_self _ _)
    have hcs := ih (fun d hd => h d (List.mem_cons_of_mem _ hd))
    simp only [replacePipe, List.map_cons, if_neg hc]
    rw [show List.map (fun c => if c = '|' then '-' else c) cs = replacePipe cs from rfl, hcs]

theorem replaceColon_of_no_colon {s : Str} (h : ∀ c ∈ s, c ≠ ':') : replaceColon s = s := by
  induction s with
  | nil => rfl
  | cons c cs ih =>
    have hc : c ≠ ':' := h c (List.mem_cons_self _ _)
    have hcs := ih (fun d hd => h d (List.mem_cons_of_mem _ hd))
    simp only [replaceColon, if_neg hc, List.cons_append, List.nil_append, hcs]

theorem removeInvalid_of_no_invalid {s : Str} (h : ∀ c ∈ s, invalidChars.contains c = false) :
    removeInvalid s = s := by
  apply List.filter_eq_self.mpr
  intro a ha
  rw [Bool.not_eq_true']
  exact h a ha

theorem pyWords_word_ne_nil {s w : Str} (hw : w ∈ pyWords s) : w ≠ [] := by
  have := (List.mem_filter.mp hw).2
  intro hnil
  subst hnil
  simp at this

theorem pyWords_joinSp {ws : List Str} (hne : ∀ w ∈ ws, w ≠ [])
    (hsp : ∀ w ∈ ws, ∀ c ∈ w, isPySpace c = false) : pyWords (joinSp ws) = ws := by
  induction ws with
  | nil => rfl
  | cons w vs ih =>
    cases vs with
    | nil =>
      have h1 : splitSep isPySpace w = [w] :=
        splitSep_of_all_not (hsp w (List.mem_cons_self _ _))
      have h2 : w ≠ [] := hne w (List.mem_cons_self _ _)
      simp [pyWords, joinSp, h1, h2]
    | cons v vs' =>
      have hw : joinSp (w :: v :: vs') = w ++ ' ' :: joinSp (v :: vs') := rfl
      have hsep : isPySpace ' ' = true := by decide
      have h1 : splitSep isPySpace w = [w] :=
        splitSep_of_all_not (hsp w (List.mem_cons_self _ _))
      have h2 : w ≠ [] := hne w (List.mem_cons_self _ _)
      have ihv := ih (fun u hu => hne u (List.mem_cons_of_mem _ hu))
        (fun u hu => hsp u (List.mem_cons_of_mem _ hu))
      rw [pyWords, hw, splitSep_append_sep hsep, List.filter_append, h1]
      rw [show List.filter (fun w => !w.isEmpty) (splitSep isPySpace (joinSp (v :: vs'))) =
        pyWords (joinSp (v :: vs')) from rfl, ihv]
      simp [h2]

theorem sanitizeFilename_char {c : Char} {x : Str} (h : c ∈ sanitizeFilename x) :
    c ≠ '|' ∧ c ≠ ':' ∧ invalidChars.contains c = false := by
  rcases mem_joinSp h with rfl | ⟨w, hw, hcw⟩
  · exact ⟨by decide, by decide, by decide⟩
  · have h1 := mem_pyWords hw hcw
    have h2 := mem_removeInvalid h1.1
    have h3 := mem_replaceColon h2.1
    refine ⟨?_, h3.1, h2.2⟩
    rcases h3.2 with h4 | h4 | h4
    · exact (mem_replacePipe h4).1
    · subst h4; decide
    · subst h4; decide

/-- C6 — The filename sanitizer is idempotent:
`sanitize(sanitize(x)) == sanitize(x)` for every input string `x`.  (In the
model `sanitizeFilename` is a total function on strings, so it returns a
string — possibly empty — for every input, mirroring the claim that the
Python code never raises.) -/
theorem sanitize_idempotent : ∀ x : Str, sanitizeFilename (sanitizeFilename x) = sanitizeFilename x := by
  intro x
  set y := sanitizeFilename x with hy
  have hpipe : replacePipe y = y :=
    replacePipe_of_no_pipe (fun c hc => (sanitizeFilename_char (hy ▸ hc)).1)
  have hcolon : replaceColon y = y :=
    replaceColon_of_no_colon (fun c hc => (sanitizeFilename_char (hy ▸ hc)).2.1)
  have hinv : removeInvalid y = y :=
    removeInvalid_of_no_invalid (fun c hc => (sanitizeFilename_char (hy ▸ hc)).2.2)
  have hwords : pyWords y =
      pyWords (removeInvalid (replaceColon (replacePipe x))) := by
    rw [hy, sanitizeFilename]
    apply pyWords_joinSp
    · exact fun w hw => pyWords_word_ne_nil hw
    · exact fun w hw c hc => (mem_pyWords hw hc).2
  rw [show sanitizeFilename y = joinSp (pyWords (removeInvalid (replaceColon (replacePipe y))))
    from rfl, hpipe, hcolon, hinv, hwords]
  rw [hy, sanitizeFilename]

def isSlash (c : Char) : Bool := c = '/'

def isDot (c : Char) : Bool := c = '.'

def isQmark (c : Char) : Bool := c = '?'

/-- Lines 302–304 of `download_episode` (duplicated at lines 495–497 of the
dry-run branch of `main`): `ext = ".mp3"`, and if `"." in url.split("/")[-1]`
then `ext = "." + url.split(".")[-1].split("?")[0]`. -/
def inferExt (url : Str) : Str :=
  if ((splitSep isSlash url).getLastD []).contains '.' then
    '.' :: (splitSep isQmark ((splitSep isDot url).getLastD [])).headD []
  else ".mp3".toList

/-- The extension-inference rule as the spec words it: inspect the last path
segment of the url; if it contains a `.`, take the substring after the last
`.` and strip any trailing query string (`?...`); otherwise default to
`.mp3`. -/
def extSpecRule (url : Str) : Str :=
  if (afterLast isSlash url).contains '.' then
    '.' :: (afterLast isDot url).takeWhile (fun c => !isQmark c)
  else ".mp3".toList

/-- C7 — Extension inference: the computation in the code agrees everywhere with
the description in the spec (last path segment containing a `.` yields `.` plus the
substring after the last `.` with the trailing query string stripped,
otherwise the default `.mp3`), and on the three examples of the spec it yields
`.mp3`, `.mp3` and `.m4a` respectively. -/
theorem inferExt_spec :
    (∀ url : Str, inferExt url = extSpecRule url) ∧
    inferExt ("https://x.com/ep.mp3?sig=1".toList) = ".mp3".toList ∧
    inferExt ("https://x.com/ep".toList) = ".mp3".toList ∧
    inferExt ("https://x.com/a.b.m4a".toList) = ".m4a".toList := by
  refine ⟨?_, by decide, by decide, by decide⟩
  intro url
  rw [inferExt, extSpecRule, getLastD_splitSep, getLastD_splitSep, headD_splitSep]

/-- A path segment survives `pathlib` normalisation iff it is non-empty and
not `.`. -/
def okSeg (w : Str) : Bool := !w.isEmpty && !(w == ['.'])

/-- A raw path string as a normalised list of segments, the way `pathlib`
parses it: split on `/`, dropping empty and `.` segments. -/
def normSegs (s : Str) : List Str := (splitSep isSlash s).filter okSeg

theorem normSegs_append (a b : Str) : normSegs (a ++ '/' :: b) = normSegs a ++ normSegs b := by
  rw [normSegs, splitSep_append_sep (by decide), List.filter_append]
  rfl

/-- Model of `episode.get("title", "Unknown")` (line 294). -/
def dlTitle (title : Option Str) : Str := title.getD ("Unknown".toList)

/-- Model of `episode.get("podcastTitle", "Unknown Podcast")` (line 295). -/
def dlPodcast (podcastTitle : Option Str) : Str := podcastTitle.getD ("Unknown Podcast".toList)

/-- An episode record as consumed by the downloader core. -/
structure Episode where
  title : Option Str
  podcastTitle : Option Str
  url : Option Str
  published : Option Str
  uuid : Str
deriving DecidableEq, Repr

/-- The inferred extension for an episode: `.mp3` when no url is present
(mirroring `ext = ".mp3"` before the guarded reassignment), else
`inferExt url`. -/
def extOf (ep : Episode) : Str :=
  match ep.url with
  | none => ".mp3".toList
  | some u => inferExt u

/-- The directory the real download branch writes into (lines 306–313):
the base directory, plus the sanitized podcast title when organizing by
podcast. -/
def destDir (baseDir : Str) (organize : Bool) (ep : Episode) : List Str :=
  normSegs baseDir ++
    (if organize then normSegs (sanitizeFilename (dlPodcast ep.podcastTitle)) else [])

/-- The destination filename, `sanitize_filename(title) + ext`
(lines 309/312). -/
def destFilename (ep : Episode) : Str := sanitizeFilename (dlTitle ep.title) ++ extOf ep

/-- The resolved destination path of the real download branch,
`podcast_dir / filename` or `download_dir / filename` (lines 310/313),
as a normalised segment list. -/
def destPath (baseDir : Str) (organize : Bool) (ep : Episode) : List Str :=
  destDir baseDir organize ep ++ normSegs (destFilename ep)

/-- The path string of the dry-run branch (lines 495–505):
`f"{args.output_dir}/{podcast_dir}/{filename}"` or
`f"{args.output_dir}/{filename}"`, built by plain string interpolation. -/
def dryFilepath (baseDir : Str) (organize : Bool) (ep : Episode) : Str :=
  if organize then
    baseDir ++ '/' :: (sanitizeFilename (dlPodcast ep.podcastTitle) ++ '/' :: destFilename ep)
  else
    baseDir ++ '/' :: destFilename ep

/-- The dry-run branch of `main` (lines 479–513) for a single episode: it
computes and prints the path string, counts the episode successful iff a url
is present, and performs no effectful operation at all (no directory
creation, no file write, no network request, no metadata reconciliation). -/
def dryRunStep (ep : Episode) : Bool × List String := (ep.url.isSome, [])

/-- C3 — Dry-run mode computes the same destination path as real mode (the
two computations denote the same normalised filesystem path), and its
per-episode step has an empty effect trace: the Streaming Downloader and the
Metadata Reconciler are never invoked. -/
theorem dryrun_same_path_no_effects :
    ∀ (baseDir : Str) (organize : Bool) (ep : Episode),
      normSegs (dryFilepath baseDir organize ep) = destPath baseDir organize ep ∧
      (dryRunStep ep).2 = [] := by
  intro baseDir organize ep
  refine ⟨?_, rfl⟩
  cases organize with
  | false =>
    rw [dryFilepath, if_neg (by simp), normSegs_append, destPath, destDir, if_neg (by simp)]
    simp
  | true =>
    rw [dryFilepath, if_pos rfl, normSegs_append, normSegs_append, destPath, destDir,
      if_pos rfl]
    simp [List.append_assoc]

/-- Model of the Python substring test `needle in hay`. -/
def containsSub (needle hay : Str) : Bool :=
  (List.range (hay.length + 1)).any (fun i => needle.isPrefixOf (hay.drop i))

theorem containsSub_nil (hay : Str) : containsSub [] hay = true := by
  apply List.any_eq_true.mpr
  exact ⟨0, by simp [List.mem_range], by simp [List.isPrefixOf]⟩

theorem containsSub_append (n r : Str) : containsSub n (n ++ r) = true := by
  apply List.any_eq_true.mpr
  refine ⟨0, by simp [List.mem_range], ?_⟩
  rw [List.drop_zero, List.isPrefixOf_iff_prefix]
  exact List.prefix_append n r

theorem pyLower_append (a b : Str) : pyLower (a ++ b) = pyLower a ++ pyLower b :=
  List.map_append _ a b

/-- Line 164: `needs_enhancement = len(title) < 15 and podcast_lower not in
title_lower` (the same test appears for existing tags at lines 204 and 251,
where it is called `should_update`). -/
def needsEnhancement (t podcast : Str) : Bool :=
  decide (t.length < 15) && !containsSub (pyLower podcast) (pyLower t)

/-- Model of `episode.get("title", "")` / `episode.get("podcastTitle", "")`
(lines 148–149). -/
def metaField (f : Option Str) : Str := f.getD []

/-- Lines 152–170: the effective title written by `set_metadata`, derived from
the raw episode title: enhanced to `f"{podcast_title} - {title}"` iff both
the title and the podcast title are non-empty (truthy) and the episode title
needs enhancement. -/
def computedTitle (ep : Episode) : Str :=
  let t := metaField ep.title
  let p := metaField ep.podcastTitle
  if !t.isEmpty && !p.isEmpty && needsEnhancement t p then p ++ (" - ".toList) ++ t else t

/-- Lines 193–212 (MP3) / 240–259 (MP4): an existing Title tag is rewritten
iff it is truthy (non-empty) and satisfies the enhancement test against the
podcast title. -/
def shouldUpdateTitle (existing podcast : Str) : Bool :=
  !existing.isEmpty && needsEnhancement existing podcast

/-- Modelled stdlib behaviour: `str(datetime.fromisoformat(published.replace
("Z", "+00:00")).year)` (lines 176–178).  An ISO-8601 timestamp begins with a
4-digit year; the full library validation is abstracted to checking those
leading digits, and a parse failure yields `none` (the code turns it into
`""` via the bare `except`). -/
def parseYear (published : Str) : Option Str :=
  if decide (4 ≤ published.length) && (published.take 4).all Char.isDigit then
    some (published.take 4)
  else none

/-- Lines 174–180: `year = ""`, replaced by the parsed year when `published`
is truthy and parses. -/
def yearOf (ep : Episode) : Str :=
  match ep.published with
  | none => []
  | some p => if p.isEmpty then [] else (parseYear p).getD []

/-- The tag set of an audio file: Title/Artist/Album/Year/Genre, each
independently present or absent (`TIT2`/`TPE1`/`TALB`/`TDRC`/`TCON` frames for
MP3, `©nam`/`©ART`/`©alb`/`©day`/`©gen` atoms for MP4). -/
structure TagSet where
  title : Option Str
  artist : Option Str
  album : Option Str
  year : Option Str
  genre : Option Str
deriving DecidableEq, Repr

/-- A fresh tag set, as created by `audio.add_tags()` (line 186). -/
def emptyTags : TagSet := ⟨none, none, none, none, none⟩

/-- What `MutagenFile` returned for the file: nothing, an MP3 whose ID3 tag
block may be missing, an MP4 (whose atom dictionary always exists), or some
other recognised container that `set_metadata` does not handle. -/
inductive Audio where
  | unrecognized : Audio
  | mp3 : Option TagSet → Audio
  | mp4 : TagSet → Audio
  | other : TagSet → Audio
deriving DecidableEq, Repr

def tagTitle : Str := "Title".toList

def tagTitleEnh : Str := "Title (enhanced)".toList

def tagArtist : Str := "Artist".toList

def tagAlbum : Str := "Album".toList

def tagYear : Str := "Year".toList

def tagGenre : Str := "Genre".toList

def genrePodcast : Str := "Podcast".toList

/-- The per-tag reconciliation of `set_metadata`, written once for both
container branches: the MP3 branch (lines 184–233) and the MP4 branch
(lines 235–280) perform exactly the same sequence of decisions, differing
only in the container API.  Title: set when absent; cleared and re-set to the
computed episode title when present, truthy and passing the enhancement test.
Artist/Album: set to the podcast title when absent.  Year: set when the
parsed year is truthy and the tag absent.  Genre: set to `"Podcast"` when
absent.  Returns the new tag set and the `tags_added` report list. -/
def applyTags (t : TagSet) (ep : Episode) : TagSet × List Str :=
  let p := metaField ep.podcastTitle
  let y := yearOf ep
  let titleStep : Option Str × List Str :=
    match t.title with
    | none => (some (computedTitle ep), [tagTitle])
    | some e =>
      if shouldUpdateTitle e p then (some (computedTitle ep), [tagTitleEnh])
      else (some e, [])
  let artistStep : Option Str × List Str :=
    match t.artist with
    | none => (some p, [tagArtist])
    | some v => (some v, [])
  let albumStep : Option Str × List Str :=
    match t.album with
    | none => (some p, [tagAlbum])
    | some v => (some v, [])
  let yearStep : Option Str × List Str :=
    match t.year with
    | none => if !y.isEmpty then (some y, [tagYear]) else (none, [])
    | some v => (some v, [])
  let genreStep : Option Str × List Str :=
    match t.genre with
    | none => (some genrePodcast, [tagGenre])
    | some v => (some v, [])
  (⟨titleStep.1, artistStep.1, albumStep.1, yearStep.1, genreStep.1⟩,
    titleStep.2 ++ artistStep.2 ++ albumStep.2 ++ yearStep.2 ++ genreStep.2)

/-- Model of `PodcastDownloader.set_metadata` (lines 130–289): returns the resulting
audio object, the `tags_added` list, and whether `audio.save()` was called
(line 282: iff `tags_added` is non-empty).  An unrecognised file (line 145)
returns immediately; a container that is neither MP3 nor MP4 falls through
both `isinstance` branches untouched.  For MP3, a missing tag block is
created first (`audio.add_tags()`, line 186). -/
def setMetadata (audio : Audio) (ep : Episode) : Audio × List Str × Bool :=
  match audio with
  | .unrecognized => (.unrecognized, [], false)
  | .other t => (.other t, [], false)
  | .mp3 t? =>
    let r := applyTags (t?.getD emptyTags) ep
    (.mp3 (some r.1), r.2, !r.2.isEmpty)
  | .mp4 t =>
    let r := applyTags t ep
    (.mp4 r.1, r.2, !r.2.isEmpty)

theorem shouldUpdateTitle_computed (t p : Str) :
    shouldUpdateTitle
      (if !t.isEmpty && !p.isEmpty && needsEnhancement t p then p ++ (" - ".toList) ++ t else t)
      p = false := by
  cases t with
  | nil => simp [shouldUpdateTitle]
  | cons c cs =>
    cases p with
    | nil =>
      simp only [List.isEmpty_nil, Bool.not_true, Bool.and_false, Bool.false_and,
        Bool.false_eq_true, if_false, shouldUpdateTitle, needsEnhancement]
      rw [show pyLower [] = [] from rfl, containsSub_nil]
      simp
    | cons d ds =>
      cases hne : needsEnhancement (c :: cs) (d :: ds) with
      | false => simp [hne, shouldUpdateTitle]
      | true =>
        rw [if_pos (by simp : (!(c :: cs).isEmpty && !(d :: ds).isEmpty && true) = true)]
        have hc : containsSub (pyLower (d :: ds))
            (pyLower ((d :: ds) ++ (" - ".toList) ++ (c :: cs))) = true := by
          rw [List.append_assoc, pyLower_append]
          exact containsSub_append _ _
        simp only [shouldUpdateTitle, needsEnhancement, hc, Bool.not_true, Bool.and_false]

theorem shouldUpdateTitle_computedTitle (ep : Episode) :
    shouldUpdateTitle (computedTitle ep) (metaField ep.podcastTitle) = false := by
  simp only [computedTitle]
  exact shouldUpdateTitle_computed _ _

theorem applyTags_title (t : TagSet) (ep : Episode) :
    (applyTags t ep).1.title = some (match t.title with
      | none => computedTitle ep
      | some e =>
        if shouldUpdateTitle e (metaField ep.podcastTitle) then computedTitle ep else e) := by
  cases h : t.title with
  | none => simp [applyTags, h]
  | some e =>
    simp only [applyTags, h]
    split <;> rfl

theorem applyTags_artist (t : TagSet) (ep : Episode) :
    (applyTags t ep).1.artist = some (t.artist.getD (metaField ep.podcastTitle)) := by
  cases h : t.artist <;> simp [applyTags, h]

theorem applyTags_album (t : TagSet) (ep : Episode) :
    (applyTags t ep).1.album = some (t.album.getD (metaField ep.podcastTitle)) := by
  cases h : t.album <;> simp [applyTags, h]

theorem applyTags_year (t : TagSet) (ep : Episode) :
    (applyTags t ep).1.year = (match t.year with
      | none => if !(yearOf ep).isEmpty then some (yearOf ep) else none
      | some v => some v) := by
  cases h : t.year with
  | none =>
    simp only [applyTags, h]
    split <;> rfl
  | some v => simp [applyTags, h]

theorem applyTags_genre (t : TagSet) (ep : Episode) :
    (applyTags t ep).1.genre = some (t.genre.getD genrePodcast) := by
  cases h : t.genre <;> simp [applyTags, h]

theorem applyTags_added (t : TagSet) (ep : Episode) :
    (applyTags t ep).2 =
      (match t.title with
        | none => [tagTitle]
        | some e =>
          if shouldUpdateTitle e (metaField ep.podcastTitle) then [tagTitleEnh] else []) ++
      (match t.artist with | none => [tagArtist] | some _ => []) ++
      (match t.album with | none => [tagAlbum] | some _ => []) ++
      (match t.year with
        | none => if !(yearOf ep).isEmpty then [tagYear] else []
        | some _ => []) ++
      (match t.genre with | none => [tagGenre] | some _ => []) := by
  rcases t with ⟨tt, ta, tal, ty, tg⟩
  cases tt <;> cases ta <;> cases tal <;> cases ty <;> cases tg <;>
    simp only [applyTags] <;> (try split) <;> (try split) <;> rfl

theorem applyTags_noop {t : TagSet} {ep : Episode}
    (h1 : ∃ v, t.title = some v ∧ shouldUpdateTitle v (metaField ep.podcastTitle) = false)
    (h2 : t.artist.isSome = true) (h3 : t.album.isSome = true)
    (h4 : t.year.isSome = true ∨ (yearOf ep).isEmpty = true)
    (h5 : t.genre.isSome = true) :
    applyTags t ep = (t, []) := by
  obtain ⟨v, hv, hsv⟩ := h1
  rcases t with ⟨tt, ta, tal, ty, tg⟩
  simp only at hv
  subst hv
  obtain ⟨a, ha⟩ := Option.isSome_iff_exists.mp h2
  obtain ⟨al, hal⟩ := Option.isSome_iff_exists.mp h3
  obtain ⟨g, hg⟩ := Option.isSome_iff_exists.mp h5
  simp only at ha hal hg
  subst ha hal hg
  cases ty with
  | some y => simp [applyTags, hsv]
  | none =>
    rcases h4 with h4 | h4
    · simp at h4
    · simp [applyTags, hsv, h4]

theorem applyTags_idem (t : TagSet) (ep : Episode) :
    applyTags (applyTags t ep).1 ep = ((applyTags t ep).1, []) := by
  apply applyTags_noop
  · rw [applyTags_title]
    refine ⟨_, rfl, ?_⟩
    cases h : t.title with
    | none => exact shouldUpdateTitle_computedTitle ep
    | some e =>
      change shouldUpdateTitle (if shouldUpdateTitle e (metaField ep.podcastTitle) = true
        then computedTitle ep else e) (metaField ep.podcastTitle) = false
      cases hs : shouldUpdateTitle e (metaField ep.podcastTitle) with
      | true =>
        rw [if_pos rfl]
        exact shouldUpdateTitle_computedTitle ep
      | false =>
        rw [if_neg (by simp)]
        exact hs
  · rw [applyTags_artist]; rfl
  · rw [applyTags_album]; rfl
  · rw [applyTags_year]
    cases h : t.year with
    | some v => exact Or.inl rfl
    | none =>
      cases hy : (yearOf ep).isEmpty with
      | true => exact Or.inr rfl
      | false => exact Or.inl (by simp [hy])
  · rw [applyTags_genre]; rfl

/-- C4 — Reconciliation is idempotent: running `set_metadata` a second time
with the same episode record returns the audio object unchanged (an identical
TagSet), reports an empty `tags_added` list, and does not call `save()`
again. -/
theorem reconcile_idempotent : ∀ (audio : Audio) (ep : Episode),
    setMetadata (setMetadata audio ep).1 ep = ((setMetadata audio ep).1, [], false) := by
  intro audio ep
  cases audio with
  | unrecognized => rfl
  | other t => rfl
  | mp3 topt =>
    show setMetadata (.mp3 (some (applyTags (topt.getD emptyTags) ep).1)) ep = _
    rw [show setMetadata (.mp3 (some (applyTags (topt.getD emptyTags) ep).1)) ep =
      (.mp3 (some (applyTags (applyTags (topt.getD emptyTags) ep).1 ep).1),
       (applyTags (applyTags (topt.getD emptyTags) ep).1 ep).2,
       !(applyTags (applyTags (topt.getD emptyTags) ep).1 ep).2.isEmpty) from rfl,
      applyTags_idem]
    rfl
  | mp4 t =>
    show setMetadata (.mp4 (applyTags t ep).1) ep = _
    rw [show setMetadata (.mp4 (applyTags t ep).1) ep =
      (.mp4 (applyTags (applyTags t ep).1 ep).1,
       (applyTags (applyTags t ep).1 ep).2,
       !(applyTags (applyTags t ep).1 ep).2.isEmpty) from rfl,
      applyTags_idem]
    rfl

/-- C5 — The reconciler never deletes or modifies an existing Artist, Album,
Year or Genre tag: each is set (to the podcast title, the podcast title, the
parsed year, and the literal `"Podcast"` respectively) only when absent, the
Year additionally only when a year was parsed; and the Title is the only tag
ever replaced, via the title-enhancement rule. -/
theorem reconcile_preserves_other_tags : ∀ (t : TagSet) (ep : Episode),
    (applyTags t ep).1.artist = some (t.artist.getD (metaField ep.podcastTitle)) ∧
    (applyTags t ep).1.album = some (t.album.getD (metaField ep.podcastTitle)) ∧
    (applyTags t ep).1.year = (match t.year with
      | none => if !(yearOf ep).isEmpty then some (yearOf ep) else none
      | some v => some v) ∧
    (applyTags t ep).1.genre = some (t.genre.getD genrePodcast) ∧
    (applyTags t ep).1.title = some (match t.title with
      | none => computedTitle ep
      | some e =>
        if shouldUpdateTitle e (metaField ep.podcastTitle) then computedTitle ep else e) :=
  fun t ep => ⟨applyTags_artist t ep, applyTags_album t ep, applyTags_year t ep,
    applyTags_genre t ep, applyTags_title t ep⟩

/-- C9 — On a file whose contents are not a recognised audio container, or
whose container is neither MP3-style nor MP4-style, `set_metadata` modifies
no tags, never calls `save()`, and returns normally. -/
theorem reconcile_unhandled_container_noop : ∀ (ep : Episode) (t : TagSet),
    setMetadata .unrecognized ep = (.unrecognized, [], false) ∧
    setMetadata (.other t) ep = (.other t, [], false) :=
  fun _ _ => ⟨rfl, rfl⟩

/-- A file whose Title tag is `"Intro"` and whose other tags are all already
present. -/
def exTags : TagSet :=
  ⟨some ("Intro".toList), some ("Tech Weekly".toList), some ("Tech Weekly".toList),
    some ("2023".toList), some ("Podcast".toList)⟩

/-- An episode whose own raw title is 26 characters long (so it does not need
enhancement itself). -/
def exEpisode : Episode :=
  ⟨some ("A Very Long Episode Title!".toList), some ("Tech Weekly".toList),
    some ("https://x.com/ep.mp3".toList), some ("2023-06-01T00:00:00Z".toList),
    ("uuid-1".toList)⟩

/-- C1 (counterexample) — The existing Title `"Intro"` needs enhancement, but
the code does **not** re-set the Title to the enhanced form of that existing
value (`"Tech Weekly - Intro"`): it writes the title computed from the
raw title of the episode itself instead. -/
theorem title_enhanced_uses_episode_title :
    needsEnhancement ("Intro".toList) ("Tech Weekly".toList) = true ∧
    (setMetadata (.mp3 (some exTags)) exEpisode).1 ≠
      .mp3 (some { exTags with title := some ("Tech Weekly - Intro".toList) }) ∧
    (setMetadata (.mp3 (some exTags)) exEpisode).1 =
      .mp3 (some { exTags with title := some ("A Very Long Episode Title!".toList) }) := by
  refine ⟨by decide, by decide, by decide⟩

/-- C1 (amended) — When the file already has a Title tag, the enhancement
test is evaluated against the existing tag value: if the existing value is
non-empty and needs enhancement, the tag is cleared and re-set to the title
computed from the **raw title of the episode itself** (enhanced iff that title
needs enhancement) and `"Title (enhanced)"` is reported; otherwise the Title
tag is left untouched and no Title entry is reported. -/
theorem title_enhancement_amended :
    ∀ (t : TagSet) (ep : Episode) (e : Str), t.title = some e →
      (shouldUpdateTitle e (metaField ep.podcastTitle) = true →
        (applyTags t ep).1.title = some (computedTitle ep) ∧
        tagTitleEnh ∈ (applyTags t ep).2) ∧
      (shouldUpdateTitle e (metaField ep.podcastTitle) = false →
        (applyTags t ep).1.title = some e ∧
        tagTitleEnh ∉ (applyTags t ep).2 ∧ tagTitle ∉ (applyTags t ep).2) := by
  intro t ep e h
  constructor
  · intro hs
    constructor
    · rw [applyTags_title, h]
      simp [hs]
    · rw [applyTags_added, h]
      simp [hs]
  · intro hs
    refine ⟨?_, ?_, ?_⟩
    · rw [applyTags_title, h]
      simp [hs]
    · rw [applyTags_added, h]
      rcases ta : t.artist <;> rcases tal : t.album <;> rcases ty : t.year <;>
        rcases tg : t.genre <;>
        simp [hs, tagTitleEnh, tagArtist, tagAlbum, tagYear, tagGenre]
    · rw [applyTags_added, h]
      rcases ta : t.artist <;> rcases tal : t.album <;> rcases ty : t.year <;>
        rcases tg : t.genre <;>
        simp [hs, tagTitle, tagArtist, tagAlbum, tagYear, tagGenre]

/-- Witness for C1 (amended): concrete run on `exTags`/`exEpisode`. -/
theorem title_enhancement_amended_witness :
    (applyTags exTags exEpisode).1.title = some ("A Very Long Episode Title!".toList) ∧
    tagTitleEnh ∈ (applyTags exTags exEpisode).2 := by
  have h := (title_enhancement_amended exTags exEpisode ("Intro".toList) rfl).1 (by decide)
  refine ⟨?_, h.2⟩
  rw [h.1]
  decide

/-- Observable side effects of `download_episode`:
`podcast_dir.mkdir(...)` (line 308), `requests.get(url, ...)` (line 321),
`open(filepath, "wb")` plus chunk writes (lines 327–331), and
`self.set_metadata(filepath, episode)` (lines 317 and 338). -/
inductive Effect where
  | mkdirp : List Str → Effect
  | netGet : Str → Effect
  | fileWrite : List Str → Effect
  | reconcile : List Str → Effect
deriving DecidableEq, Repr

def Effect.isNet : Effect → Bool
  | .netGet _ => true
  | _ => false

/-- Outcome of the streaming GET for one episode: success; an HTTP error
status (`response.raise_for_status()`, line 322 — raised before the
destination file is opened); or a network/read error after the file has been
opened and some chunks written (the loop at lines 328–334). -/
inductive NetResult where
  | ok : NetResult
  | httpError : NetResult
  | midFail : NetResult
deriving DecidableEq, Repr

/-- The filesystem as seen by `download_episode`: the existing files, each
marked complete (`true`) or partially written (`false`). -/
abbrev FileSys := List (List Str × Bool)

/-- Model of `filepath.exists()` (line 315): it does not distinguish complete files
from partial ones. -/
def fileExists (fs : FileSys) (p : List Str) : Bool := fs.any (fun e => e.1 == p)

/-- Result of `download_episode`: the returned boolean, the filesystem
afterwards, and the trace of effects performed. -/
structure DLOut where
  success : Bool
  fs : FileSys
  effects : List Effect
deriving DecidableEq, Repr

/-- Lines 306–308: when organizing by podcast, the podcast directory is
created (before the existence check). -/
def mkdirEffects (baseDir : Str) (organize : Bool) (ep : Episode) : List Effect :=
  if organize then [Effect.mkdirp (destDir baseDir true ep)] else []

/-- Model of `PodcastDownloader.download_episode` (lines 291–344).  No url: immediate
failure (lines 298–300).  Destination exists: success without network access,
but the metadata reconciler still runs (lines 315–318).  Otherwise the
streaming GET runs: an HTTP error status fails before the file is opened; a
mid-stream failure leaves the partially-written file at the destination path
(the code opens the final path directly, line 327, and has no cleanup
handler — the bare `except` at line 342 only logs and returns `False`); on
success the file is written and the reconciler runs (line 338). -/
def downloadEpisode (fs : FileSys) (net : NetResult) (baseDir : Str) (organize : Bool)
    (ep : Episode) : DLOut :=
  match ep.url with
  | none => ⟨false, fs, []⟩
  | some u =>
    let fp := destPath baseDir organize ep
    let pre := mkdirEffects baseDir organize ep
    if fileExists fs fp then ⟨true, fs, pre ++ [.reconcile fp]⟩
    else
      match net with
      | .httpError => ⟨false, fs, pre ++ [.netGet u]⟩
      | .midFail => ⟨false, (fp, false) :: fs, pre ++ [.netGet u, .fileWrite fp]⟩
      | .ok => ⟨true, (fp, true) :: fs, pre ++ [.netGet u, .fileWrite fp, .reconcile fp]⟩

/-- C8 — Skip-on-exists: when the resolved destination path already exists,
`download_episode` returns success, performs no network access, leaves the
filesystem unchanged, and still runs the metadata reconciler on the existing
file. -/
theorem skip_on_exists :
    ∀ (fs : FileSys) (net : NetResult) (baseDir : Str) (organize : Bool)
      (ep : Episode) (u : Str),
      ep.url = some u →
      fileExists fs (destPath baseDir organize ep) = true →
      (downloadEpisode fs net baseDir organize ep).success = true ∧
      (downloadEpisode fs net baseDir organize ep).effects.all (fun e => !e.isNet) = true ∧
      Effect.reconcile (destPath baseDir organize ep) ∈
        (downloadEpisode fs net baseDir organize ep).effects ∧
      (downloadEpisode fs net baseDir organize ep).fs = fs := by
  intro fs net baseDir organize ep u hu hex
  simp only [downloadEpisode, hu, hex, if_true]
  refine ⟨by trivial, ?_, ?_, by trivial⟩
  · cases organize <;> simp [mkdirEffects, Effect.isNet]
  · exact List.mem_append.mpr (Or.inr (List.mem_cons_self _ _))

/-- Witness for C8: a filesystem already holding the destination file of
`exEpisode`. -/
theorem skip_on_exists_witness :
    (downloadEpisode [(destPath ("downloads".toList) false exEpisode, true)] .ok
        ("downloads".toList) false exEpisode).success = true ∧
    (downloadEpisode [(destPath ("downloads".toList) false exEpisode, true)] .ok
        ("downloads".toList) false exEpisode).effects.all (fun e => !e.isNet) = true ∧
    Effect.reconcile (destPath ("downloads".toList) false exEpisode) ∈
      (downloadEpisode [(destPath ("downloads".toList) false exEpisode, true)] .ok
        ("downloads".toList) false exEpisode).effects ∧
    (downloadEpisode [(destPath ("downloads".toList) false exEpisode, true)] .ok
        ("downloads".toList) false exEpisode).fs =
      [(destPath ("downloads".toList) false exEpisode, true)] := by
  have h := skip_on_exists [(destPath ("downloads".toList) false exEpisode, true)] .ok
    ("downloads".toList) false exEpisode ("https://x.com/ep.mp3".toList) rfl (by decide)
  exact ⟨h.1, h.2.1, h.2.2.1, h.2.2.2⟩

/-- C2 (counterexample) — A download of `exEpisode` that fails mid-stream
(after writing has begun) leaves a partially-written file at the destination
path, and the very next call with the same episode takes the skip-if-exists
branch on that partial file: it returns success and performs only the
metadata reconciliation, no network access. -/
theorem partial_file_treated_as_downloaded :
    (downloadEpisode [] .midFail ("downloads".toList) false exEpisode).success = false ∧
    (downloadEpisode [] .midFail ("downloads".toList) false exEpisode).fs =
      [(destPath ("downloads".toList) false exEpisode, false)] ∧
    (downloadEpisode
        (downloadEpisode [] .midFail ("downloads".toList) false exEpisode).fs
        .httpError ("downloads".toList) false exEpisode).success = true ∧
    (downloadEpisode
        (downloadEpisode [] .midFail ("downloads".toList) false exEpisode).fs
        .httpError ("downloads".toList) false exEpisode).effects =
      [Effect.reconcile (destPath ("downloads".toList) false exEpisode)] := by
  refine ⟨by decide, by decide, by decide, by decide⟩

/-- C2 (amended) — Only failures that occur before the destination file is
opened (an HTTP error status on the initial request) leave no file behind.
A failure after writing has begun leaves the partially-written file at the
destination path, and a subsequent call with the same episode finds that the
path exists and takes the skip-if-exists branch, treating the partial file as
already downloaded. -/
theorem failed_download_partial_behaviour :
    ∀ (fs : FileSys) (net : NetResult) (baseDir : Str) (organize : Bool)
      (ep : Episode) (u : Str),
      ep.url = some u →
      fileExists fs (destPath baseDir organize ep) = false →
      (downloadEpisode fs .httpError baseDir organize ep).success = false ∧
      (downloadEpisode fs .httpError baseDir organize ep).fs = fs ∧
      (downloadEpisode fs .midFail baseDir organize ep).success = false ∧
      (downloadEpisode fs .midFail baseDir organize ep).fs =
        (destPath baseDir organize ep, false) :: fs ∧
      (downloadEpisode ((destPath baseDir organize ep, false) :: fs)
          net baseDir organize ep).success = true ∧
      (downloadEpisode ((destPath baseDir organize ep, false) :: fs)
          net baseDir organize ep).effects.all (fun e => !e.isNet) = true := by
  intro fs net baseDir organize ep u hu hex
  have hex2 : fileExists ((destPath baseDir organize ep, false) :: fs)
      (destPath baseDir organize ep) = true := by
    simp [fileExists]
  refine ⟨?_, ?_, ?_, ?_, ?_, ?_⟩
  · simp [downloadEpisode, hu, hex]
  · simp [downloadEpisode, hu, hex]
  · simp [downloadEpisode, hu, hex]
  · simp [downloadEpisode, hu, hex]
  · simp [downloadEpisode, hu, hex2]
  · simp only [downloadEpisode, hu, hex2, if_true]
    cases organize <;> simp [mkdirEffects, Effect.isNet]

/-- Witness for C2 (amended): concrete run on an empty filesystem with
`exEpisode`. -/
theorem failed_download_partial_behaviour_witness :
    (downloadEpisode [] .midFail ("downloads".toList) false exEpisode).fs =
      [(destPath ("downloads".toList) false exEpisode, false)] ∧
    (downloadEpisode [(destPath ("downloads".toList) false exEpisode, false)] .ok
        ("downloads".toList) false exEpisode).success = true := by
  have h := failed_download_partial_behaviour [] .ok ("downloads".toList) false exEpisode
    ("https://x.com/ep.mp3".toList) rfl (by decide)
  exact ⟨h.2.2.2.1, h.2.2.2.2.1⟩

/-- A second, distinct episode (different uuid and published date, no other
difference) resolving to the same destination path as `exEpisode`. -/
def exEpisodeB : Episode :=
  ⟨some ("A Very Long Episode Title!".toList), some ("Tech Weekly".toList),
    some ("https://x.com/ep.mp3".toList), none, ("uuid-2".toList)⟩

/-- C10 — The resolved destination path depends only on the sanitized episode
title, the inferred extension and (when organizing by podcast) the sanitized
podcast title — the uuid plays no role; consequently, when a second distinct
episode resolves to an already-existing path, `download_episode` treats it as
already downloaded: it returns success, performs no network access, and
reconciles the existing file against the record of the second episode. -/
theorem destpath_collision_skips :
    ∀ (baseDir : Str) (organize : Bool) (ep1 ep2 : Episode) (fs : FileSys)
      (net : NetResult) (u2 : Str),
      sanitizeFilename (dlTitle ep1.title) = sanitizeFilename (dlTitle ep2.title) →
      extOf ep1 = extOf ep2 →
      sanitizeFilename (dlPodcast ep1.podcastTitle) =
        sanitizeFilename (dlPodcast ep2.podcastTitle) →
      destPath baseDir organize ep1 = destPath baseDir organize ep2 ∧
      (ep2.url = some u2 →
        fileExists fs (destPath baseDir organize ep1) = true →
        (downloadEpisode fs net baseDir organize ep2).success = true ∧
        (downloadEpisode fs net baseDir organize ep2).effects.all (fun e => !e.isNet) = true ∧
        Effect.reconcile (destPath baseDir organize ep1) ∈
          (downloadEpisode fs net baseDir organize ep2).effects ∧
        (downloadEpisode fs net baseDir organize ep2).fs = fs) := by
  intro baseDir organize ep1 ep2 fs net u2 h1 h2 h3
  have hpath : destPath baseDir organize ep1 = destPath baseDir organize ep2 := by
    rw [destPath, destPath, destDir, destDir, destFilename, destFilename, h1, h2, h3]
  refine ⟨hpath, ?_⟩
  intro hu hex
  rw [hpath] at hex
  simp only [downloadEpisode, hu, hex, if_true]
  refine ⟨by trivial, ?_, ?_, by trivial⟩
  · cases organize <;> simp [mkdirEffects, Effect.isNet]
  · rw [hpath]
    exact List.mem_append.mpr (Or.inr (List.mem_cons_self _ _))

/-- Witness for C10: `exEpisode` and `exEpisodeB` differ in uuid and
published date but share a destination path; after `exEpisode` was
downloaded, `exEpisodeB` is skipped and reconciled. -/
theorem destpath_collision_skips_witness :
    destPath ("downloads".toList) false exEpisode =
      destPath ("downloads".toList) false exEpisodeB ∧
    (downloadEpisode [(destPath ("downloads".toList) false exEpisode, true)] .ok
        ("downloads".toList) false exEpisodeB).success = true ∧
    Effect.reconcile (destPath ("downloads".toList) false exEpisode) ∈
      (downloadEpisode [(destPath ("downloads".toList) false exEpisode, true)] .ok
        ("downloads".toList) false exEpisodeB).effects := by
  have h := destpath_collision_skips ("downloads".toList) false exEpisode exEpisodeB
    [(destPath ("downloads".toList) false exEpisode, true)] .ok
    ("https://x.com/ep.mp3".toList) rfl rfl rfl
  have h2 := h.2 rfl (by decide)
  exact ⟨h.1, h2.1, h2.2.2.1⟩
